import Mathlib

/-!
Verification of the task-manager core described in the repository
specification.  The repository snapshot holds only the README of
`advanced_cli_task_manager` and a teaching notebook; the package sources
(`task_manager/store.py`, `task_manager/cli.py`, the logger and the tests)
are not in the snapshot, so the store and dispatcher are modelled from the
specification, as each doc comment records.
-/

namespace TaskManager

/-- A task record: integer id, text description, integer priority. -/
structure Task where
  id : Nat
  description : String
  priority : Int
deriving Repr, DecidableEq

/-- Modelled from the spec: the in-memory store (`task_manager/store.py` is
missing from the snapshot) is the task collection in insertion order together
with the next fresh id.  Ids are assigned sequentially starting at 1. -/
structure Store where
  tasks : List Task
  nextId : Nat
deriving Repr, DecidableEq

/-- Modelled from the spec: `add(description, priority)` creates a new Task
with a fresh id, appends it to the collection, and returns it. -/
def Store.add (s : Store) (d : String) (p : Int) : Task × Store :=
  let t : Task := ⟨s.nextId, d, p⟩
  (t, ⟨s.tasks ++ [t], s.nextId + 1⟩)

/-- Modelled from the spec: `list()` returns all tasks in insertion order and
performs no mutation; the pair makes the (unchanged) post-state explicit. -/
def Store.listOp (s : Store) : List Task × Store :=
  (s.tasks, s)

/-- The sequence of tasks reported by `list()`. -/
def Store.list (s : Store) : List Task :=
  (Store.listOp s).1

/-- Modelled from the spec: remove the first task whose id matches; `none`
when no task matches. -/
def removeFirst (i : Nat) : List Task → Option (List Task)
  | [] => none
  | t :: ts =>
    if t.id = i then some ts
    else (removeFirst i ts).map (fun r => t :: r)

/-- Modelled from the spec: `delete(id)` removes the task with matching id and
returns whether one was found; an absent id yields `false` and leaves the
store unchanged, with no exception raised. -/
def Store.delete (s : Store) (i : Nat) : Bool × Store :=
  match removeFirst i s.tasks with
  | none => (false, s)
  | some ts => (true, ⟨ts, s.nextId⟩)

/-- Modelled from the spec: a fresh store is empty and assigns id 1 first. -/
def initStore : Store := ⟨[], 1⟩

/-- One mutating store operation, as invoked by a CLI run. -/
inductive Step : Store → Store → Prop where
  | add : ∀ s d p, Step s (Store.add s d p).2
  | del : ∀ s i, Step s (Store.delete s i).2

/-- Zero or more store operations. -/
def Steps : Store → Store → Prop :=
  Relation.ReflTransGen Step

/-- Store states reachable over the store's lifetime. -/
def Reachable (s : Store) : Prop :=
  Steps initStore s

/-- The store invariant: every stored id is below `nextId`, and ids strictly
increase along the collection (hence are pairwise distinct). -/
def StoreInv (s : Store) : Prop :=
  (∀ t ∈ s.tasks, t.id < s.nextId) ∧
  s.tasks.Pairwise (fun a b => a.id < b.id)

/-- An id that has been retired: it is below the fresh-id counter and no
current task carries it.  Every operation preserves this. -/
def IdRetired (i : Nat) (s : Store) : Prop :=
  i < s.nextId ∧ i ∉ s.tasks.map Task.id

/-- Decimal value of a digit character, `none` for a non-digit. -/
def charDigit (c : Char) : Option Nat :=
  if c.isDigit then some (c.toNat - 48) else none

/-- Accumulate decimal digits left to right; `none` on any non-digit. -/
def parseDigitsAux : List Char → Nat → Option Nat
  | [], acc => some acc
  | c :: cs, acc =>
    match charDigit c with
    | some d => parseDigitsAux cs (acc * 10 + d)
    | none => none

/-- Parse a non-empty all-digit character list as a natural number. -/
def parseNatList (cs : List Char) : Option Nat :=
  match cs with
  | [] => none
  | _ => parseDigitsAux cs 0

/-- Modelled from the spec: parse a decimal natural number, as the id
argument of `delete` is parsed. -/
def parseNat (s : String) : Option Nat :=
  parseNatList s.data

/-- Modelled from the spec: parse an optionally signed decimal integer, as
Python's `int()` parses the priority argument of `add`. -/
def parseInt (s : String) : Option Int :=
  match s.data with
  | '-' :: cs => (parseNatList cs).map (fun n => -(n : Int))
  | '+' :: cs => (parseNatList cs).map (fun n => (n : Int))
  | cs => (parseNatList cs).map (fun n => (n : Int))

/-- Modelled from the spec: whether a CLI argument vector is valid — correct
argument count for the subcommand and, where an integer is expected (the
priority of `add`, the id of `delete`), an argument that parses as one. -/
def validArgs (args : List String) : Bool :=
  match args with
  | [c, _, p] => c = "add" && (parseInt p).isSome
  | [c] => c = "list"
  | [c, i] => c = "delete" && (parseNat i).isSome
  | _ => false

/-- Modelled from the spec: the CLI dispatcher (`task_manager/cli.py` is
missing from the snapshot).  It maps a subcommand to the store operation,
validating argument count and types; on invalid input it prints usage and
exits non-zero without invoking any store operation; `delete` exits 0 when
the id was found and 1 otherwise.  Result: (exit status, output, store). -/
def runCli (s : Store) (args : List String) : Nat × String × Store :=
  match args with
  | [c, d, p] =>
    if c = "add" then
      match parseInt p with
      | some pr =>
        let r := Store.add s d pr
        (0, toString (repr r.1), r.2)
      | none => (2, "usage", s)
    else (2, "usage", s)
  | [c] =>
    if c = "list" then
      let r := Store.listOp s
      (0, toString (repr r.1), r.2)
    else (2, "usage", s)
  | [c, i] =>
    if c = "delete" then
      match parseNat i with
      | some n =>
        let r := Store.delete s n
        (if r.1 then 0 else 1, if r.1 then "deleted" else "task not found", r.2)
      | none => (2, "usage", s)
    else (2, "usage", s)
  | _ => (2, "usage", s)

/-- Modelled from the spec: the persisted file holds the whole task
collection; loading at the start of an invocation rebuilds the store, with
the fresh id one past the largest persisted id (1 on an empty file). -/
def loadStore (file : List Task) : Store :=
  ⟨file, (file.foldr (fun t m => max t.id m) 0) + 1⟩

/-- Modelled from the spec: persisting rewrites the whole file with the
current collection. -/
def saveStore (s : Store) : List Task :=
  s.tasks

/-- Modelled from the spec: one complete CLI invocation — load the full
collection from the file, dispatch, and rewrite the whole file whenever the
operation mutated the collection.  Result: (exit status, output, file). -/
def invocation (file : List Task) (args : List String) :
    Nat × String × List Task :=
  let s := loadStore file
  let r := runCli s args
  (r.1, r.2.1, if r.2.2.tasks = s.tasks then file else saveStore r.2.2)

/-- The purpose of an environment variable relevant to the tool. -/
inductive EnvPurpose where
  | moduleSearchPath
  | storeOrLogPathOverride
deriving DecidableEq, Repr

/-- Modelled from the spec and the README: the environment variables the
tool's documentation requires before any CLI invocation.  The README
(section Running the CLI Tool) instructs `export PYTHONPATH=$(pwd)` before
running `task_manager/cli.py`. -/
def requiredEnvVars : List String := ["PYTHONPATH"]

/-- Modelled from the spec and the README: what each documented environment
variable is for.  `PYTHONPATH` is the interpreter's module search path for
the `task_manager` package — not an override of the store/log file
location. -/
def envPurpose (v : String) : Option EnvPurpose :=
  if v = "PYTHONPATH" then some EnvPurpose.moduleSearchPath else none

/- Helper lemmas about `removeFirst`. -/

theorem removeFirst_eq_none_iff (i : Nat) (l : List Task) :
    removeFirst i l = none ↔ ∀ t ∈ l, t.id ≠ i := by
  induction l with
  | nil => simp [removeFirst]
  | cons t ts ih =>
    by_cases h : t.id = i
    · simp [removeFirst, h]
    · simp [removeFirst, h, ih]

theorem removeFirst_eq_none (i : Nat) (l : List Task) :
    removeFirst i l = none ↔ i ∉ l.map Task.id := by
  rw [removeFirst_eq_none_iff]
  simp

theorem removeFirst_sublist (i : Nat) (l ts : List Task)
    (h : removeFirst i l = some ts) : ts.Sublist l := by
  induction l generalizing ts with
  | nil => simp [removeFirst] at h
  | cons t l ih =>
    by_cases hid : t.id = i
    · simp [removeFirst, hid] at h
      subst h
      exact List.sublist_cons_self t l
    · simp [removeFirst, hid] at h
      obtain ⟨r, hr, hts⟩ := h
      subst hts
      exact (ih r hr).cons₂ t

theorem removeFirst_length (i : Nat) (l ts : List Task)
    (h : removeFirst i l = some ts) : ts.length + 1 = l.length := by
  induction l generalizing ts with
  | nil => simp [removeFirst] at h
  | cons t l ih =>
    by_cases hid : t.id = i
    · simp [removeFirst, hid] at h
      subst h; rfl
    · simp [removeFirst, hid] at h
      obtain ⟨r, hr, hts⟩ := h
      subst hts
      have := ih r hr
      simp only [List.length_cons]
      omega

theorem removeFirst_not_mem_aux (i : Nat) (l ts : List Task)
    (hnd : l.Pairwise (fun a b => a.id < b.id))
    (h : removeFirst i l = some ts) : ∀ t ∈ ts, t.id ≠ i := by
  induction l generalizing ts with
  | nil => simp [removeFirst] at h
  | cons t l ih =>
    rw [List.pairwise_cons] at hnd
    by_cases hid : t.id = i
    · simp [removeFirst, hid] at h
      subst h
      intro x hx
      have := hnd.1 x hx
      omega
    · simp [removeFirst, hid] at h
      obtain ⟨r, hr, hts⟩ := h
      subst hts
      intro x hx
      rcases List.mem_cons.mp hx with hxt | hxr
      · subst hxt; exact hid
      · exact ih r hnd.2 hr x hxr

theorem removeFirst_not_mem (i : Nat) (l ts : List Task)
    (hnd : l.Pairwise (fun a b => a.id < b.id))
    (h : removeFirst i l = some ts) : i ∉ ts.map Task.id := by
  intro hmem
  obtain ⟨t, ht, hidt⟩ := List.mem_map.mp hmem
  exact removeFirst_not_mem_aux i l ts hnd h t ht hidt

theorem removeFirst_isSome (i : Nat) (l : List Task) :
    (removeFirst i l).isSome = true ↔ i ∈ l.map Task.id := by
  rw [Option.isSome_iff_ne_none, ne_eq, removeFirst_eq_none]
  exact not_not

/- Basic computation lemmas for the store operations. -/

theorem add_fst (s : Store) (d : String) (p : Int) :
    (Store.add s d p).1 = ⟨s.nextId, d, p⟩ := rfl

theorem add_snd_tasks (s : Store) (d : String) (p : Int) :
    (Store.add s d p).2.tasks = s.tasks ++ [⟨s.nextId, d, p⟩] := rfl

theorem add_snd_nextId (s : Store) (d : String) (p : Int) :
    (Store.add s d p).2.nextId = s.nextId + 1 := rfl

theorem delete_nextId (s : Store) (i : Nat) :
    (Store.delete s i).2.nextId = s.nextId := by
  unfold Store.delete
  cases removeFirst i s.tasks <;> rfl

theorem delete_tasks_sublist (s : Store) (i : Nat) :
    (Store.delete s i).2.tasks.Sublist s.tasks := by
  unfold Store.delete
  cases hr : removeFirst i s.tasks with
  | none => simp
  | some ts => simpa using removeFirst_sublist i s.tasks ts hr

theorem delete_found_iff (s : Store) (i : Nat) :
    (Store.delete s i).1 = true ↔ i ∈ (Store.list s).map Task.id := by
  rw [← removeFirst_isSome]
  unfold Store.delete
  cases hr : removeFirst i s.tasks <;>
    simp [hr, Store.list, Store.listOp]

/- The store invariant holds initially and is preserved by every
operation, hence holds in every reachable state. -/

theorem storeInv_init : StoreInv initStore := by
  constructor <;> simp [initStore, StoreInv]

theorem storeInv_add (s : Store) (d : String) (p : Int) (h : StoreInv s) :
    StoreInv (Store.add s d p).2 := by
  obtain ⟨hb, hp⟩ := h
  constructor
  · intro t ht
    rw [add_snd_tasks] at ht
    rw [add_snd_nextId]
    rcases List.mem_append.mp ht with ht | ht
    · exact Nat.lt_trans (hb t ht) (Nat.lt_succ_self _)
    · simp at ht
      subst ht
      exact Nat.lt_succ_self _
  · rw [add_snd_tasks]
    rw [List.pairwise_append]
    refine ⟨hp, List.pairwise_singleton _ _, ?_⟩
    intro a ha b hb'
    simp at hb'
    subst hb'
    exact hb a ha

theorem storeInv_delete (s : Store) (i : Nat) (h : StoreInv s) :
    StoreInv (Store.delete s i).2 := by
  obtain ⟨hb, hp⟩ := h
  have hsub := delete_tasks_sublist s i
  constructor
  · intro t ht
    rw [delete_nextId]
    exact hb t (hsub.mem ht)
  · exact hp.sublist hsub

theorem reachable_storeInv (s : Store) (h : Reachable s) : StoreInv s := by
  have h' : Relation.ReflTransGen Step initStore s := h
  clear h
  induction h' with
  | refl => exact storeInv_init
  | tail _ hstep ih =>
    cases hstep with
    | add d p => exact storeInv_add _ d p ih
    | del i => exact storeInv_delete _ i ih

theorem nextId_mono (s s' : Store) (h : Steps s s') :
    s.nextId ≤ s'.nextId := by
  have h' : Relation.ReflTransGen Step s s' := h
  clear h
  induction h' with
  | refl => exact Nat.le_refl _
  | tail _ hstep ih =>
    refine Nat.le_trans ih ?_
    cases hstep with
    | add d p => rw [add_snd_nextId]; exact Nat.le_succ _
    | del i => rw [delete_nextId]

theorem idRetired_steps (i : Nat) (s s' : Store) (h : Steps s s')
    (hi : IdRetired i s) : IdRetired i s' := by
  have h' : Relation.ReflTransGen Step s s' := h
  clear h
  induction h' with
  | refl => exact hi
  | tail _ hstep ih =>
    obtain ⟨hlt, hmem⟩ := ih
    cases hstep with
    | add d p =>
      constructor
      · rw [add_snd_nextId]; omega
      · intro hc
        rw [add_snd_tasks] at hc
        simp at hc
        rcases hc with hc | hc
        · obtain ⟨t, ht, hid⟩ := hc
          exact hmem (List.mem_map.mpr ⟨t, ht, hid⟩)
        · omega
    | del j =>
      constructor
      · rw [delete_nextId]; exact hlt
      · intro hc
        obtain ⟨t, ht, hid⟩ := List.mem_map.mp hc
        exact hmem (List.mem_map.mpr ⟨t, (delete_tasks_sublist _ j).mem ht, hid⟩)

/-- Two tasks of a collection with strictly increasing ids that share an id
are the same task. -/
theorem eq_of_mem_of_id_eq (l : List Task)
    (hp : l.Pairwise (fun a b => a.id < b.id))
    (t t' : Task) (ht : t ∈ l) (ht' : t' ∈ l) (hid : t'.id = t.id) :
    t' = t := by
  by_contra hne
  have hp' : l.Pairwise (fun a b => a.id < b.id ∨ b.id < a.id) :=
    hp.imp (fun h => Or.inl h)
  have hsymm : Symmetric (fun a b : Task => a.id < b.id ∨ b.id < a.id) := by
    intro a b h
    exact h.symm
  have := hp'.forall hsymm ht' ht hne
  omega

example : (Store.add initStore "a" 2).1 = ⟨1, "a", 2⟩ := rfl
example : (Store.delete initStore 1).1 = false := rfl
example :
    (Store.delete (Store.add initStore "a" 2).2 1).1 = true := rfl
example : parseInt "2" = some 2 := rfl
example : parseInt "-7" = some (-7) := rfl
example : parseInt "x" = none := rfl
example : parseNat "1" = some 1 := rfl
example : parseNat "12" = some 12 := rfl
example : parseNat "" = none := rfl
example : (runCli initStore ["delete", "1"]).1 = 1 := rfl
example : (runCli initStore ["delete", "x"]).1 = 2 := rfl
example : validArgs ["add", "Buy milk", "2"] = true := rfl
example : validArgs ["add", "Buy milk"] = false := rfl
example :
    (invocation [] ["add", "Buy milk", "2"]).2.2 = [⟨1, "Buy milk", 2⟩] := rfl

/-- C1: for every store state, `add(description, priority)` returns a Task
whose description and priority equal the arguments, and a subsequent
`list()` includes that task with matching description and priority. -/
theorem claim1_add_then_list (s : Store) (d : String) (p : Int) :
    (Store.add s d p).1.description = d ∧
    (Store.add s d p).1.priority = p ∧
    (Store.add s d p).1 ∈ Store.list (Store.add s d p).2 := by
  refine ⟨rfl, rfl, ?_⟩
  simp [Store.list, Store.listOp, Store.add]

/-- C2: for every store state and every id not present in it, `delete(id)`
returns false — no exception reaches the caller — and the store is left
unchanged. -/
theorem claim2_delete_absent (s : Store) (i : Nat)
    (h : i ∉ (Store.list s).map Task.id) :
    (Store.delete s i).1 = false ∧ (Store.delete s i).2 = s := by
  have hn : removeFirst i s.tasks = none :=
    (removeFirst_eq_none i s.tasks).mpr h
  unfold Store.delete
  simp [hn]

/-- C2 witness: deleting id 1 from the empty store. -/
theorem claim2_delete_absent_witness :
    (Store.delete initStore 1).1 = false ∧
    (Store.delete initStore 1).2 = initStore :=
  claim2_delete_absent initStore 1 (by simp [Store.list, Store.listOp, initStore])

/-- C3: in every reachable store containing the id, `delete(id)` returns
true, removes exactly one record (so at most one), and the id is absent from
every subsequent `list()` result. -/
theorem claim3_delete_present (s : Store) (i : Nat) (hs : Reachable s)
    (h : i ∈ (Store.list s).map Task.id) :
    (Store.delete s i).1 = true ∧
    (Store.delete s i).2.tasks.length + 1 = s.tasks.length ∧
    ∀ s', Steps (Store.delete s i).2 s' →
      i ∉ (Store.list s').map Task.id := by
  obtain ⟨hb, hp⟩ := reachable_storeInv s hs
  cases hr : removeFirst i s.tasks with
  | none =>
    exact absurd h ((removeFirst_eq_none i s.tasks).mp hr)
  | some ts =>
    have hret : IdRetired i (Store.delete s i).2 := by
      constructor
      · rw [delete_nextId]
        obtain ⟨t, ht, hid⟩ := List.mem_map.mp h
        have := hb t ht
        omega
      · simp only [Store.delete, hr]
        exact removeFirst_not_mem i s.tasks ts hp hr
    refine ⟨?_, ?_, ?_⟩
    · simp [Store.delete, hr]
    · simp only [Store.delete, hr]
      exact removeFirst_length i s.tasks ts hr
    · intro s' hsteps
      exact (idRetired_steps i _ s' hsteps hret).2

/-- C3 witness: deleting id 1 from the reachable one-task store obtained by
adding a task to the fresh store. -/
theorem claim3_delete_present_witness :
    (Store.delete (Store.add initStore "a" 2).2 1).1 = true ∧
    (Store.delete (Store.add initStore "a" 2).2 1).2.tasks.length + 1 =
      (Store.add initStore "a" 2).2.tasks.length ∧
    ∀ s', Steps (Store.delete (Store.add initStore "a" 2).2 1).2 s' →
      1 ∉ (Store.list s').map Task.id :=
  claim3_delete_present (Store.add initStore "a" 2).2 1
    (Relation.ReflTransGen.single (Step.add initStore "a" 2))
    (by simp [Store.list, Store.listOp, Store.add, initStore])

/-- C4: id uniqueness is an invariant — every reachable store has pairwise
distinct ids, `add` and `delete` preserve reachability (`list` does not
change the state at all), and an id assigned by `add` differs from the id
assigned by any later `add` in the store's lifetime. -/
theorem claim4_ids_unique (s : Store) (hs : Reachable s) :
    ((Store.list s).map Task.id).Nodup ∧
    (∀ d p, Reachable (Store.add s d p).2) ∧
    (∀ i, Reachable (Store.delete s i).2) ∧
    ∀ d p s' d' p', Steps (Store.add s d p).2 s' →
      (Store.add s' d' p').1.id ≠ (Store.add s d p).1.id := by
  obtain ⟨hb, hp⟩ := reachable_storeInv s hs
  refine ⟨?_, ?_, ?_, ?_⟩
  · exact (List.pairwise_map.mpr hp).imp Nat.ne_of_lt
  · intro d p
    exact Relation.ReflTransGen.tail hs (Step.add s d p)
  · intro i
    exact Relation.ReflTransGen.tail hs (Step.del s i)
  · intro d p s' d' p' hsteps
    have hmono := nextId_mono _ s' hsteps
    rw [add_snd_nextId] at hmono
    rw [add_fst, add_fst]
    simp only []
    omega

/-- C4 witness: the invariant at the fresh store. -/
theorem claim4_ids_unique_witness :
    ((Store.list initStore).map Task.id).Nodup ∧
    (∀ d p, Reachable (Store.add initStore d p).2) ∧
    (∀ i, Reachable (Store.delete initStore i).2) ∧
    ∀ d p s' d' p', Steps (Store.add initStore d p).2 s' →
      (Store.add s' d' p').1.id ≠ (Store.add initStore d p).1.id :=
  claim4_ids_unique initStore Relation.ReflTransGen.refl

/-- C5: `list()` returns all tasks in insertion order — it is exactly the
stored collection, `add` appends its new task at the end of the listing,
and in every reachable store the listed ids appear in the strictly
increasing order in which `add` assigned them. -/
theorem claim5_list_insertion_order (s : Store) (hs : Reachable s) :
    Store.list s = s.tasks ∧
    (∀ d p, Store.list (Store.add s d p).2
        = Store.list s ++ [(Store.add s d p).1]) ∧
    (Store.list s).Pairwise (fun a b => a.id < b.id) := by
  obtain ⟨hb, hp⟩ := reachable_storeInv s hs
  refine ⟨rfl, ?_, hp⟩
  intro d p
  simp [Store.list, Store.listOp, Store.add]

/-- C5 witness: insertion order in the reachable one-task store. -/
theorem claim5_list_insertion_order_witness :
    Store.list (Store.add initStore "a" 2).2 = (Store.add initStore "a" 2).2.tasks ∧
    (∀ d p, Store.list (Store.add (Store.add initStore "a" 2).2 d p).2
        = Store.list (Store.add initStore "a" 2).2
          ++ [(Store.add (Store.add initStore "a" 2).2 d p).1]) ∧
    (Store.list (Store.add initStore "a" 2).2).Pairwise
      (fun a b => a.id < b.id) :=
  claim5_list_insertion_order (Store.add initStore "a" 2).2
    (Relation.ReflTransGen.single (Step.add initStore "a" 2))

/-- C6: a CLI invocation `delete <id>` exits with status 0 exactly when a
task with that id was found (and removed), and with a non-zero status when
none was; task-not-found is reported through the boolean result and the
exit status, not by an exception (the dispatcher is a total function). -/
theorem claim6_cli_delete_exit (s : Store) (a : String) (n : Nat)
    (h : parseNat a = some n) :
    ((runCli s ["delete", a]).1 = 0 ↔ (Store.delete s n).1 = true) ∧
    ((runCli s ["delete", a]).1 ≠ 0 ↔ (Store.delete s n).1 = false) ∧
    ((Store.delete s n).1 = true ↔ n ∈ (Store.list s).map Task.id) := by
  have hrun : runCli s ["delete", a]
      = ((if (Store.delete s n).1 then 0 else 1),
         (if (Store.delete s n).1 then "deleted" else "task not found"),
         (Store.delete s n).2) := by
    simp [runCli, h]
  rw [hrun]
  refine ⟨?_, ?_, delete_found_iff s n⟩ <;>
    cases hb : (Store.delete s n).1 <;> simp [hb]

/-- C6 witness: `delete 1` on the empty store exits non-zero; after one add,
the id is present. -/
theorem claim6_cli_delete_exit_witness :
    ((runCli initStore ["delete", "1"]).1 = 0 ↔
      (Store.delete initStore 1).1 = true) ∧
    ((runCli initStore ["delete", "1"]).1 ≠ 0 ↔
      (Store.delete initStore 1).1 = false) ∧
    ((Store.delete initStore 1).1 = true ↔
      1 ∈ (Store.list initStore).map Task.id) :=
  claim6_cli_delete_exit initStore "1" 1 rfl

/-- C7: on invalid input — wrong argument count, or a priority that does not
parse as an integer — the dispatcher prints usage, exits non-zero, and
invokes no store operation: the store is returned untouched. -/
theorem claim7_cli_invalid (s : Store) (args : List String)
    (h : validArgs args = false) :
    (runCli s args).1 ≠ 0 ∧ (runCli s args).2.1 = "usage" ∧
    (runCli s args).2.2 = s := by
  rcases args with _ | ⟨c, _ | ⟨a2, _ | ⟨a3, _ | ⟨a4, rest⟩⟩⟩⟩
  · simp [runCli]
  · by_cases hc : c = "list"
    · rw [hc] at h
      simp [validArgs] at h
    · simp [runCli, hc]
  · by_cases hc : c = "delete"
    · subst hc
      simp [validArgs] at h
      cases hp : parseNat a2 with
      | none => simp [runCli, hp]
      | some v => rw [hp] at h; simp at h
    · simp [runCli, hc]
  · by_cases hc : c = "add"
    · subst hc
      simp [validArgs] at h
      cases hp : parseInt a3 with
      | none => simp [runCli, hp]
      | some v => rw [hp] at h; simp at h
    · simp [runCli, hc]
  · simp [runCli]

/-- C7 witness: a lone unknown subcommand is invalid and rejected. -/
theorem claim7_cli_invalid_witness :
    (runCli initStore ["bogus"]).1 ≠ 0 ∧
    (runCli initStore ["bogus"]).2.1 = "usage" ∧
    (runCli initStore ["bogus"]).2.2 = initStore :=
  claim7_cli_invalid initStore ["bogus"] rfl

/-- C8: persistence round-trip — an invocation loads the whole collection
from the file, and after it finishes (the file being rewritten whenever the
operation mutated the collection), loading the resulting file yields exactly
the final in-memory task collection. -/
theorem claim8_persistence_roundtrip (file : List Task) (args : List String) :
    Store.list (loadStore (invocation file args).2.2)
      = Store.list (runCli (loadStore file) args).2.2 := by
  simp only [invocation, Store.list, Store.listOp, saveStore]
  split
  · next hcond => exact hcond.symm
  · rfl

/-- C9: `list()` leaves the store unchanged, and no operation modifies an
existing task's description or priority: any task surviving an `add` or a
`delete` on a reachable store keeps both fields (tasks are only created by
`add` and removed by `delete`; there is no update). -/
theorem claim9_frame_no_update (s : Store) (hs : Reachable s) :
    (Store.listOp s).2 = s ∧
    (∀ d p t t', t ∈ s.tasks → t' ∈ (Store.add s d p).2.tasks →
      t'.id = t.id →
      t'.description = t.description ∧ t'.priority = t.priority) ∧
    (∀ i t t', t ∈ s.tasks → t' ∈ (Store.delete s i).2.tasks →
      t'.id = t.id →
      t'.description = t.description ∧ t'.priority = t.priority) := by
  obtain ⟨hb, hp⟩ := reachable_storeInv s hs
  refine ⟨rfl, ?_, ?_⟩
  · intro d p t t' ht ht' hid
    rw [add_snd_tasks] at ht'
    rcases List.mem_append.mp ht' with ht' | ht'
    · rw [eq_of_mem_of_id_eq s.tasks hp t t' ht ht' hid]
      exact ⟨rfl, rfl⟩
    · simp at ht'
      subst ht'
      have := hb t ht
      simp at hid
      omega
  · intro i t t' ht ht' hid
    have ht'' : t' ∈ s.tasks := (delete_tasks_sublist s i).mem ht'
    rw [eq_of_mem_of_id_eq s.tasks hp t t' ht ht'' hid]
    exact ⟨rfl, rfl⟩

/-- C9 witness: the frame conditions at the reachable one-task store. -/
theorem claim9_frame_no_update_witness :
    (Store.listOp (Store.add initStore "a" 2).2).2
      = (Store.add initStore "a" 2).2 ∧
    (∀ d p t t', t ∈ (Store.add initStore "a" 2).2.tasks →
      t' ∈ (Store.add (Store.add initStore "a" 2).2 d p).2.tasks →
      t'.id = t.id →
      t'.description = t.description ∧ t'.priority = t.priority) ∧
    (∀ i t t', t ∈ (Store.add initStore "a" 2).2.tasks →
      t' ∈ (Store.delete (Store.add initStore "a" 2).2 i).2.tasks →
      t'.id = t.id →
      t'.description = t.description ∧ t'.priority = t.priority) :=
  claim9_frame_no_update (Store.add initStore "a" 2).2
    (Relation.ReflTransGen.single (Step.add initStore "a" 2))

/-- C10 counterexample: the README requires `PYTHONPATH` to be exported
before any CLI invocation, and `PYTHONPATH` is the interpreter's module
search path, not an override of the store/log file location — so an
environment variable beyond a path override is required. -/
theorem claim10_env_counterexample :
    "PYTHONPATH" ∈ requiredEnvVars ∧
      envPurpose "PYTHONPATH" ≠ some EnvPurpose.storeOrLogPathOverride := by
  refine ⟨?_, ?_⟩
  · simp [requiredEnvVars]
  · simp [envPurpose]

/-- C10 amended: every environment variable required for a CLI invocation is
either `PYTHONPATH` — the module search path the README instructs the user
to export so the `task_manager` package resolves — or an optional override
of the store/log file location. -/
theorem claim10_env_amended (v : String) (h : v ∈ requiredEnvVars) :
    v = "PYTHONPATH" ∨
      envPurpose v = some EnvPurpose.storeOrLogPathOverride := by
  simp [requiredEnvVars] at h
  exact Or.inl h

/-- C10 amended witness at the one documented required variable. -/
theorem claim10_env_amended_witness :
    "PYTHONPATH" = "PYTHONPATH" ∨
      envPurpose "PYTHONPATH" = some EnvPurpose.storeOrLogPathOverride :=
  claim10_env_amended "PYTHONPATH" (by simp [requiredEnvVars])

end TaskManager
